import Mathlib

/-
Verification of the z-words-collector incremental archival engine.

The definitions below are a shallow embedding of the Python sources
`parser.py` and `parser_daemon.py`: message normalization and filtering,
the merge-by-id shard store (`save_messages` in the daemon, and the
corresponding merge/index-update code in `fetch_channel`), gap detection
(`detect_gaps`), the rate-limit retry logic (`fetch_messages_batch`,
`fetch_new_messages`, `fetch_old_messages`), index persistence
(`save_index` / `load_index`), and the dual monitor/backfill loops of the
daemon. External effects (the Telegram client, the file system, the clock)
are modelled as explicit parameters: the upstream client is an oracle
returning the stream each attempt would observe, file contents are passed
in and returned, and timestamps are numeric parameters.
-/

namespace ZWords

/-- A raw upstream message as observed by `client.iter_messages`: an id, a
date, an optional text and an optional media payload (the media class name
when media is present). Timestamps and dates are modelled as naturals
ordered chronologically (ISO-8601 strings compare lexicographically, which
is the same order). -/
structure RawMsg where
  id : Nat
  date : Nat
  text : Option String
  media : Option String
  deriving DecidableEq, Repr

/-- A normalized archival record, the dict built inside the fetch
functions: id, date, text, media presence and media kind. The remaining
fields of the Python dict (views, forwards, reactions, fwd_from, raw) are
carried verbatim from the raw message and play no role in any claim. -/
structure Msg where
  id : Nat
  date : Nat
  text : Option String
  hasMedia : Bool
  mediaType : Option String
  deriving DecidableEq, Repr

/-- Normalization of one raw message into the stored record shape
(`message_data = {...}` in the fetch functions). -/
def normalizeMsg (r : RawMsg) : Msg :=
  { id := r.id
    date := r.date
    text := r.text
    hasMedia := r.media.isSome
    mediaType := r.media }

/-- The filter applied to every message during fetching: a message is kept
unless both its text and its media are absent
(`if not message or (message.text is None and message.media is None): continue`). -/
def keepMessage (r : RawMsg) : Bool :=
  r.text.isSome || r.media.isSome

/-- Collect the records produced by one iteration pass: drop null
messages, drop messages with neither text nor media, normalize the rest. -/
def collectStream (stream : List (Option RawMsg)) : List Msg :=
  ((stream.filterMap id).filter keepMessage).map normalizeMsg

/-- Insertion-order key list, as a Python dict built by successive
assignment orders its keys: first occurrence wins for position. -/
def firstDedup (l : List Nat) : List Nat :=
  l.foldl (fun acc i => if i ∈ acc then acc else acc ++ [i]) []

/-- The last message of `msgs` carrying id `i`, which is the value a
Python dict comprehension `{m.id : m for m in msgs}` stores at key `i`. -/
def lastWithId (msgs : List Msg) (i : Nat) : Option Msg :=
  (msgs.filter (fun m => m.id == i)).getLast?

/-- Deduplication by id with Python dict semantics
(`{msg.id : msg for msg in all}.values()`): keys in first-occurrence
order, each mapped to the last message seen with that id. -/
def dedupeById (msgs : List Msg) : List Msg :=
  (firstDedup (msgs.map Msg.id)).filterMap (lastWithId msgs)

/-- Stable insertion into a list sorted by ascending id. -/
def orderedInsertById (m : Msg) : List Msg → List Msg
  | [] => [m]
  | x :: xs => if m.id ≤ x.id then m :: x :: xs else x :: orderedInsertById m xs

/-- Stable sort by ascending id, modelling Python's stable
`sorted(..., key=lambda x: x.id)`. -/
def sortById (l : List Msg) : List Msg :=
  l.foldr orderedInsertById []

/-- Minimum id of a batch (`min(msg.id for msg in msgs)`); 0 on an empty
batch, which the callers rule out. -/
def minIdOf (msgs : List Msg) : Nat :=
  match msgs.map Msg.id with
  | [] => 0
  | x :: xs => xs.foldl Nat.min x

/-- Maximum id of a batch (`max(msg.id for msg in msgs)`). -/
def maxIdOf (msgs : List Msg) : Nat :=
  match msgs.map Msg.id with
  | [] => 0
  | x :: xs => xs.foldl Nat.max x

/-- One entry of the index's `data_files` list. -/
structure FileInfo where
  filename : String
  date : String
  postsCount : Nat
  deriving DecidableEq, Repr

/-- The per-channel CursorIndex document, `index.json`. The daemon's
variant also carries `last_backfill`; `parser.py` simply never touches
that field. The `deleted_messages` sub-object is flattened into the three
fields `deletedIds`, `deletedCount`, `deletedLastCheck`. -/
structure IndexDoc where
  channelUsername : String
  totalPostsArchived : Nat
  lastKnownId : Nat
  minKnownId : Option Nat
  firstPostDate : Option Nat
  lastPostDate : Option Nat
  lastUpdated : Option Nat
  lastBackfill : Option Nat
  dataFiles : List FileInfo
  deletedIds : List Nat
  deletedCount : Nat
  deletedLastCheck : Option Nat
  deriving DecidableEq, Repr

/-- The freshly initialized zero-value index that `load_index` returns
when `index.json` is absent or fails to parse. -/
def freshIndex (channel : String) : IndexDoc :=
  { channelUsername := channel
    totalPostsArchived := 0
    lastKnownId := 0
    minKnownId := none
    firstPostDate := none
    lastPostDate := none
    lastUpdated := none
    lastBackfill := none
    dataFiles := []
    deletedIds := []
    deletedCount := 0
    deletedLastCheck := none }

/-- One daily shard file: metadata plus the deduplicated records sorted by
ascending id. -/
structure ShardFile where
  collectionTimestamp : Nat
  channelUsername : String
  totalMessages : Nat
  minIdInBatch : Nat
  maxIdInBatch : Nat
  date : String
  messages : List Msg
  deriving DecidableEq, Repr

/-- The daemon's `new_count`: how many batch messages carry an id not
present among the existing messages of today's file
(`len([m for m in messages if m.id not in [em.id for em in existing]])`). -/
def newCountOf (existing msgs : List Msg) : Nat :=
  (msgs.filter (fun m => !(existing.map Msg.id).contains m.id)).length

/-- The number of ids present in a merged result that were absent from the
pre-merge stored set: the specification's definition of `newCount`,
expressed as the cardinality of the set difference of the id sets. -/
def newIdsCard (existing msgs : List Msg) : Nat :=
  ((msgs.map Msg.id).toFinset \ (existing.map Msg.id).toFinset).card

/-- The extension of a daily shard file: the file for date `d` is named
`d` followed by this extension. -/
def shardExt : String := ".json.gz"

/-- Replace the first `data_files` entry with the same filename, or append
a new entry when none matches. -/
def updateDataFiles : List FileInfo → FileInfo → List FileInfo
  | [], fi => [fi]
  | f :: fs, fi =>
      if f.filename == fi.filename then fi :: fs else f :: updateDataFiles fs fi

/-- The merged content of today's shard: existing messages plus the (id
sorted) batch, deduplicated by id with the batch winning collisions, then
sorted ascending by id. -/
def mergedMessages (existing msgs : List Msg) : List Msg :=
  sortById (dedupeById (existing ++ msgs))

/-- Update of the scalar index fields performed by `save_messages` right
after writing the shard: add `new_count` to the archived total, raise
`last_known_id` to the batch maximum, lower `min_known_id` to the batch
minimum, refresh `last_updated` and widen the post-date range. -/
def indexAfterSave (index : IndexDoc) (msgs : List Msg) (newCount minId maxId : Nat)
    (fileEntry : FileInfo) (now : Nat) : IndexDoc :=
  { index with
    totalPostsArchived := index.totalPostsArchived + newCount
    lastKnownId := Nat.max maxId index.lastKnownId
    minKnownId := some (match index.minKnownId with
      | none => minId
      | some k => Nat.min minId k)
    lastUpdated := some now
    firstPostDate := match msgs.head? with
      | none => index.firstPostDate
      | some m => match index.firstPostDate with
        | none => some m.date
        | some d => if m.date < d then some m.date else some d
    lastPostDate := match msgs.getLast? with
      | none => index.lastPostDate
      | some m => match index.lastPostDate with
        | none => some m.date
        | some d => if d < m.date then some m.date else some d
    dataFiles := updateDataFiles index.dataFiles fileEntry }

/-- The daemon's `save_messages(channel_path, messages, index)`. Inputs:
the content of today's shard file (`none` when the file is missing or
unreadable, which the code treats as an empty message list), the fetched
batch, the in-memory index, today's date string and the current time.
Output: the shard file written (or `none` when the batch is empty and the
function returns immediately) and the updated index, which the code
persists with `save_index` before returning. -/
def saveMessages (existingToday : Option (List Msg)) (messages : List Msg)
    (index : IndexDoc) (todayStr : String) (now : Nat) :
    Option ShardFile × IndexDoc :=
  if messages.isEmpty then (none, index)
  else
    let msgs := sortById messages
    let existing := existingToday.getD []
    let uniqueMessages := mergedMessages existing msgs
    let minId := minIdOf msgs
    let maxId := maxIdOf msgs
    let shard : ShardFile :=
      { collectionTimestamp := now
        channelUsername := index.channelUsername
        totalMessages := uniqueMessages.length
        minIdInBatch := minId
        maxIdInBatch := maxId
        date := todayStr
        messages := uniqueMessages }
    let newCount := newCountOf existing msgs
    let fileEntry : FileInfo :=
      { filename := todayStr ++ shardExt, date := todayStr
        postsCount := uniqueMessages.length }
    (some shard, indexAfterSave index msgs newCount minId maxId fileEntry now)

/-- The merge-and-index-update portion of `parser.py`'s `fetch_channel`
(from the `if not all_new_messages: return` guard through the
`data_files` update). It performs the same shard merge as the daemon but
increments `total_posts_archived` by `len(all_new_messages)`, the raw
batch length, rather than by a count of new ids. -/
def fetchChannelSave (existingToday : Option (List Msg)) (allNewMessages : List Msg)
    (index : IndexDoc) (todayStr : String) (now : Nat) :
    Option ShardFile × IndexDoc :=
  if allNewMessages.isEmpty then (none, index)
  else
    let msgs := sortById allNewMessages
    let existing := existingToday.getD []
    let uniqueMessages := mergedMessages existing msgs
    let minId := minIdOf msgs
    let maxId := maxIdOf msgs
    let shard : ShardFile :=
      { collectionTimestamp := now
        channelUsername := index.channelUsername
        totalMessages := uniqueMessages.length
        minIdInBatch := minId
        maxIdInBatch := maxId
        date := todayStr
        messages := uniqueMessages }
    let fileEntry : FileInfo :=
      { filename := todayStr ++ shardExt, date := todayStr
        postsCount := uniqueMessages.length }
    (some shard, indexAfterSave index msgs msgs.length minId maxId fileEntry now)

/-- The outcome of one upstream iteration attempt, as seen by the `try`
block around `client.iter_messages`: the stream of raw messages the
iteration yielded before it either completed (`success`), raised a
`FloodWaitError` carrying a mandated wait in seconds (`floodWait`), or
raised some other exception (`failure`). `none` entries are messages that
are falsy (`if not message: continue`). -/
inductive AttemptOutcome where
  | success (stream : List (Option RawMsg))
  | floodWait (stream : List (Option RawMsg)) (waitSeconds : Nat)
  | failure (stream : List (Option RawMsg))
  deriving Repr

/-- An upstream oracle for `fetch_messages_batch`: given the `min_id`,
`max_id` and `limit` arguments of an attempt and its retry counter, the
outcome that attempt observes. -/
def Upstream : Type :=
  Option Nat → Option Nat → Option Nat → Nat → AttemptOutcome

/-- The observable behaviour of one `fetch_messages_batch` call: the value
returned (`Except.ok`) or the exception propagated (`Except.error`),
together with the sequence of backoff sleeps performed, in order. Sleep
durations are rationals since the backoff multiplier is `1.5 ** k`. -/
structure FetchResult where
  result : Except Unit (List Msg)
  sleeps : List ℚ
  deriving Repr

/-- The retry ceiling of `fetch_messages_batch` (`max_retries = 3`). -/
def maxRetries : Nat := 3

/-- The `limit` passed to a resumed attempt:
`limit - len(messages_data) if limit else None`, where a falsy limit
(absent or zero) propagates as no limit. -/
def remainingLimit (limit : Option Nat) (collected : Nat) : Option Nat :=
  match limit with
  | none => none
  | some l => if l = 0 then none else some (l - collected)

/-- Shallow embedding of `parser.py`'s `fetch_messages_batch`. Each
attempt consults the upstream oracle; a completed iteration returns the
collected records; a non-rate-limit failure returns the partial batch if
non-empty and otherwise propagates; a `FloodWaitError` returns the partial
batch once `max_retries` attempts are exhausted, and otherwise sleeps
`wait * 1.5 ** retryCount` and recurses — narrowing `max_id` to the
minimum collected id when travelling backwards, narrowing `min_id` to the
maximum collected id when travelling forwards, and deduplicating the
concatenation of the partial batch with the recursive result by id. -/
def fetchMessagesBatch (upstream : Upstream)
    (minId maxId limit : Option Nat) (retryCount : Nat) : FetchResult :=
  match upstream minId maxId limit retryCount with
  | .success stream => { result := .ok (collectStream stream), sleeps := [] }
  | .failure stream =>
      let msgs := collectStream stream
      if msgs.isEmpty then { result := .error (), sleeps := [] }
      else { result := .ok msgs, sleeps := [] }
  | .floodWait stream w =>
      let msgs := collectStream stream
      if maxRetries ≤ retryCount then { result := .ok msgs, sleeps := [] }
      else
        let wait : ℚ := (w : ℚ) * (3 / 2 : ℚ) ^ retryCount
        if msgs.isEmpty then
          let r := fetchMessagesBatch upstream minId maxId limit (retryCount + 1)
          { result := r.result, sleeps := wait :: r.sleeps }
        else
          let newLimit := remainingLimit limit msgs.length
          if maxId.isSome then
            let r := fetchMessagesBatch upstream minId (some (minIdOf msgs)) newLimit
              (retryCount + 1)
            match r.result with
            | .ok rem => { result := .ok (dedupeById (msgs ++ rem)), sleeps := wait :: r.sleeps }
            | .error e => { result := .error e, sleeps := wait :: r.sleeps }
          else
            let r := fetchMessagesBatch upstream (some (maxIdOf msgs)) maxId newLimit
              (retryCount + 1)
            match r.result with
            | .ok rem => { result := .ok (dedupeById (msgs ++ rem)), sleeps := wait :: r.sleeps }
            | .error e => { result := .error e, sleeps := wait :: r.sleeps }
  termination_by maxRetries + 1 - retryCount
  decreasing_by all_goals simp [maxRetries] at *; omega

/-- An upstream oracle for the daemon's fetchers: the attempt outcome as a
function of the `min_id` (or `max_id`) argument and of how many times the
call has already restarted itself. -/
def SimpleUpstream : Type :=
  Nat → Nat → AttemptOutcome

/-- Shallow embedding of the daemon's `fetch_new_messages`. On a
`FloodWaitError` it sleeps exactly the mandated seconds and restarts
itself from scratch with the same arguments, discarding the partial
stream; on any other exception it logs and returns whatever was collected;
there is no retry ceiling, so the recursion is bounded here by an explicit
`fuel` and `none` marks the executions that are still restarting when the
fuel runs out (the Python recursion simply never returns on such runs). -/
def fetchNewMessages (upstream : SimpleUpstream) (lastKnownId : Nat) :
    Nat → Nat → Option (List Msg × List ℚ)
  | 0, _ => none
  | fuel + 1, attempt =>
      match upstream lastKnownId attempt with
      | .success stream => some (collectStream stream, [])
      | .failure stream => some (collectStream stream, [])
      | .floodWait _ w =>
          match fetchNewMessages upstream lastKnownId fuel (attempt + 1) with
          | none => none
          | some (msgs, sleeps) => some (msgs, (w : ℚ) :: sleeps)

/-- Shallow embedding of the daemon's `fetch_old_messages`, whose single
iteration passes `max_id = min_known_id` and `limit` upstream. On a
`FloodWaitError` it sleeps the mandated seconds once and then returns the
partial batch; on any other exception it returns the partial batch; it
never retries and never raises. -/
def fetchOldMessages (upstream : SimpleUpstream) (minKnownId limit : Nat) :
    List Msg × List ℚ :=
  match upstream minKnownId limit with
  | .success stream => (collectStream stream, [])
  | .failure stream => (collectStream stream, [])
  | .floodWait stream w => (collectStream stream, [(w : ℚ)])

/-- The set of message ids present across the data files listed in the
index: `detect_gaps` walks `index.data_files`, loads each file that exists
and parses, and collects the ids of its messages, silently skipping files
that are missing or unreadable (`loadFile` returns `none` for those). -/
def existingIds (loadFile : String → Option (List Msg)) (files : List FileInfo) :
    Finset Nat :=
  files.foldl
    (fun acc fi =>
      match loadFile fi.filename with
      | some msgs => acc ∪ (msgs.map Msg.id).toFinset
      | none => acc)
    ∅

/-- Shallow embedding of `parser.py`'s `detect_gaps`. Returns the empty
list when `min_known_id` is falsy (absent or zero), `last_known_id` is
falsy (zero), or `min_known_id >= last_known_id`; otherwise the ids of the
inclusive range from `min_known_id` to `last_known_id` that are neither
present in any readable data file nor already recorded among the deleted
ids, sorted ascending. -/
def detectGaps (loadFile : String → Option (List Msg)) (index : IndexDoc) :
    List Nat :=
  let minK := index.minKnownId.getD 0
  let lastK := index.lastKnownId
  if minK = 0 ∨ lastK = 0 ∨ lastK ≤ minK then []
  else
    let existing := existingIds loadFile index.dataFiles
    let expected := Finset.Icc minK lastK
    let missing := expected \ existing
    let knownDeleted := index.deletedIds.toFinset
    (missing \ knownDeleted).sort (· ≤ ·)

/-- The content of one path in the modelled file system: absent, truncated
to emptiness (not parseable as an index document), or holding a complete
index document. -/
inductive FileState where
  | absent
  | empty
  | doc (d : IndexDoc)
  deriving DecidableEq, Repr

/-- A file-system operation performed by the index persistence code. -/
inductive FsOp where
  | openTrunc (path : String)
  | writeIndex (path : String) (d : IndexDoc)
  | renameFile (src dst : String)
  deriving DecidableEq, Repr

/-- The operation sequence of `save_index`: `open(index_file, 'w')`
truncates the index file in place, then `json.dump` writes the document
into it. No temporary file and no rename are involved. -/
def saveIndexOps (path : String) (d : IndexDoc) : List FsOp :=
  [FsOp.openTrunc path, FsOp.writeIndex path d]

/-- Apply one file-system operation. -/
def applyOp (fs : String → FileState) : FsOp → String → FileState
  | .openTrunc p => fun q => if q = p then .empty else fs q
  | .writeIndex p d => fun q => if q = p then .doc d else fs q
  | .renameFile src dst => fun q =>
      if q = src then .absent else if q = dst then fs src else fs q

/-- Run a sequence of file-system operations; a crash during a save is a
run of a proper prefix of the save's operations. -/
def runOps (fs : String → FileState) : List FsOp → String → FileState
  | [] => fs
  | op :: ops => runOps (applyOp fs op) ops

/-- Shallow embedding of `load_index`: a present, parseable document is
returned as is; an absent file or one that fails to parse yields the
freshly initialized index. -/
def loadIndex (fs : String → FileState) (path channel : String) : IndexDoc :=
  match fs path with
  | .doc d => d
  | _ => freshIndex channel

/-- Modelled from the spec: the write-temp-then-rename discipline the
specification requires of `save(source, index)` — no operation may
truncate or write the final path directly; the final path may only become
visible through a rename. The source under `src/` contains no
implementation of this discipline, so this definition follows the words
of the specification and is compared against `saveIndexOps`. -/
def writeTempThenRename (finalPath : String) (ops : List FsOp) : Bool :=
  ops.all fun op =>
    match op with
    | .openTrunc p => p != finalPath
    | .writeIndex p _ => p != finalPath
    | .renameFile _ _ => true

/-- The shared per-channel state the two daemon loops mutate: the on-disk
index document and the content of today's shard file. The index file is
assumed parseable here; `fileIndex` is what `load_index` returns. -/
structure SysState where
  fileIndex : IndexDoc
  today : Option (List Msg)
  deriving DecidableEq, Repr

/-- The atomic segments of the two daemon loop bodies. Each loop body is
two synchronous segments separated by the awaited fetch: `load`, which
reads `index.json` into a task-local variable, and `save`, which merges
the fetched batch into today's shard and persists the updated index
(`save_messages`, plus the extra `last_backfill` stamp and second
`save_index` in the backfill loop). -/
inductive Seg where
  | monitorLoad
  | monitorSave
  | backfillLoad
  | backfillSave
  deriving DecidableEq, Repr

/-- Task-local variables of the two loops: the index each task loaded. -/
structure Locals where
  monitorIdx : Option IndexDoc
  backfillIdx : Option IndexDoc
  deriving DecidableEq, Repr

/-- Execute one atomic segment. The monitor's save runs
`save_messages(path, batchM, index)` when its batch is non-empty; the
backfill's save runs only when the loaded `min_known_id` is above 1, runs
`save_messages(path, batchB, index)` when its batch is non-empty and then
persists the index again with `last_backfill` stamped. Both saves read
today's shard file from the current disk state but use the index their
own load segment captured earlier. -/
def stepSeg (batchM batchB : List Msg) (todayStr : String) (now : Nat) :
    Seg → SysState × Locals → SysState × Locals
  | .monitorLoad, (s, l) => (s, { l with monitorIdx := some s.fileIndex })
  | .backfillLoad, (s, l) => (s, { l with backfillIdx := some s.fileIndex })
  | .monitorSave, (s, l) =>
      match l.monitorIdx with
      | none => (s, l)
      | some idx =>
          if batchM.isEmpty then (s, l)
          else
            match saveMessages s.today batchM idx todayStr now with
            | (shard, idx2) =>
                ({ fileIndex := idx2
                   today := match shard with
                     | some sh => some sh.messages
                     | none => s.today }, l)
  | .backfillSave, (s, l) =>
      match l.backfillIdx with
      | none => (s, l)
      | some idx =>
          match idx.minKnownId with
          | none => (s, l)
          | some mk =>
              if mk ≤ 1 then (s, l)
              else if batchB.isEmpty then (s, l)
              else
                match saveMessages s.today batchB idx todayStr now with
                | (shard, idx2) =>
                    ({ fileIndex := { idx2 with lastBackfill := some now }
                       today := match shard with
                         | some sh => some sh.messages
                         | none => s.today }, l)

/-- Execute a schedule of atomic segments, in order. Cooperative
scheduling makes exactly these interleavings possible: each loop's
segments run in program order, and between a loop's `load` and `save` the
awaited network fetch suspends it, letting the other loop's segments
run. -/
def runSched (batchM batchB : List Msg) (todayStr : String) (now : Nat)
    (sched : List Seg) (start : SysState × Locals) : SysState × Locals :=
  sched.foldl (fun st seg => stepSeg batchM batchB todayStr now seg st) start

/-- A schedule is one monitor cycle and one backfill cycle interleaved:
each loop's own two segments stay in program order. -/
def validSched (sched : List Seg) : Bool :=
  (sched.filter (fun s => s == Seg.monitorLoad || s == Seg.monitorSave)
      == [Seg.monitorLoad, Seg.monitorSave]) &&
  (sched.filter (fun s => s == Seg.backfillLoad || s == Seg.backfillSave)
      == [Seg.backfillLoad, Seg.backfillSave]) &&
  sched.length == 4

/-- The `min_id` and `limit` arguments `fetch_channel` passes to its
forward fetch: on first run (`last_known_id == 0`) no `min_id` and a limit
of `INITIAL_FETCH_LIMIT` when that is positive (no limit when it is
configured as zero); on later runs `min_id = last_known_id` and no
limit. -/
def fetchChannelForwardArgs (initialFetchLimit lastKnownId : Nat) :
    Option Nat × Option Nat :=
  if lastKnownId = 0 then
    if 0 < initialFetchLimit then (none, some initialFetchLimit) else (none, none)
  else (some lastKnownId, none)

/-- The fetch performed by one cycle of the daemon's `monitor_channel`:
it loads the index and calls `fetch_new_messages` with the loaded
`last_known_id` — and no limit argument of any kind. -/
def monitorCycleFetch (upstream : SimpleUpstream) (s : SysState) (fuel : Nat) :
    Option (List Msg × List ℚ) :=
  fetchNewMessages upstream s.fileIndex.lastKnownId fuel 0

theorem orderedInsertById_perm (m : Msg) (l : List Msg) :
    List.Perm (orderedInsertById m l) (m :: l) := by
  induction l with
  | nil => simp [orderedInsertById]
  | cons x xs ih =>
    rw [orderedInsertById]
    by_cases h : m.id ≤ x.id
    · simp [h]
    · rw [if_neg h]
      exact List.Perm.trans (List.Perm.cons x ih) (List.Perm.swap m x xs)

theorem sortById_perm (l : List Msg) : List.Perm (sortById l) l := by
  induction l with
  | nil => simp [sortById]
  | cons x xs ih =>
    have h1 : sortById (x :: xs) = orderedInsertById x (sortById xs) := rfl
    rw [h1]
    exact List.Perm.trans (orderedInsertById_perm x (sortById xs)) (List.Perm.cons x ih)

theorem mem_sortById (m : Msg) (l : List Msg) : m ∈ sortById l ↔ m ∈ l :=
  (sortById_perm l).mem_iff

theorem pairwise_orderedInsertById (m : Msg) (l : List Msg)
    (h : l.Pairwise (fun a b => a.id ≤ b.id)) :
    (orderedInsertById m l).Pairwise (fun a b => a.id ≤ b.id) := by
  induction l with
  | nil => simp [orderedInsertById]
  | cons x xs ih =>
    rw [List.pairwise_cons] at h
    rw [orderedInsertById]
    by_cases hmx : m.id ≤ x.id
    · rw [if_pos hmx, List.pairwise_cons]
      refine ⟨?_, List.pairwise_cons.2 h⟩
      intro b hb
      rcases List.mem_cons.1 hb with rfl | hb2
      · exact hmx
      · exact le_trans hmx (h.1 b hb2)
    · rw [if_neg hmx, List.pairwise_cons]
      refine ⟨?_, ih h.2⟩
      intro b hb
      rcases List.mem_cons.1 ((orderedInsertById_perm m xs).mem_iff.1 hb) with rfl | hb2
      · omega
      · exact h.1 b hb2

theorem sortById_sorted (l : List Msg) :
    (sortById l).Pairwise (fun a b => a.id ≤ b.id) := by
  induction l with
  | nil => simp [sortById]
  | cons x xs ih => exact pairwise_orderedInsertById x (sortById xs) ih

theorem firstDedup_aux_nodup (l : List Nat) :
    ∀ acc : List Nat, acc.Nodup →
      (l.foldl (fun acc i => if i ∈ acc then acc else acc ++ [i]) acc).Nodup := by
  induction l with
  | nil => intro acc h; simpa using h
  | cons x xs ih =>
    intro acc h
    simp only [List.foldl_cons]
    by_cases hx : x ∈ acc
    · rw [if_pos hx]; exact ih acc h
    · rw [if_neg hx]
      exact ih (acc ++ [x]) (by simp [List.nodup_append, h, hx])

theorem firstDedup_aux_mem (l : List Nat) :
    ∀ acc : List Nat, ∀ j : Nat,
      (j ∈ l.foldl (fun acc i => if i ∈ acc then acc else acc ++ [i]) acc ↔
        j ∈ acc ∨ j ∈ l) := by
  induction l with
  | nil => intro acc j; simp
  | cons x xs ih =>
    intro acc j
    simp only [List.foldl_cons]
    by_cases hx : x ∈ acc
    · rw [if_pos hx, ih]
      constructor
      · rintro (h | h)
        · exact Or.inl h
        · exact Or.inr (List.mem_cons_of_mem x h)
      · rintro (h | h)
        · exact Or.inl h
        · rcases List.mem_cons.1 h with rfl | h2
          · exact Or.inl hx
          · exact Or.inr h2
    · rw [if_neg hx, ih]
      simp only [List.mem_append, List.mem_singleton, List.mem_cons]
      tauto

theorem firstDedup_nodup (l : List Nat) : (firstDedup l).Nodup :=
  firstDedup_aux_nodup l [] List.nodup_nil

theorem mem_firstDedup (l : List Nat) (j : Nat) : j ∈ firstDedup l ↔ j ∈ l := by
  rw [firstDedup, firstDedup_aux_mem]
  simp

theorem lastWithId_eq_some (msgs : List Msg) (i : Nat) (m : Msg)
    (h : lastWithId msgs i = some m) : m ∈ msgs ∧ m.id = i := by
  rw [lastWithId] at h
  have hm := List.mem_of_getLast?_eq_some h
  rw [List.mem_filter] at hm
  exact ⟨hm.1, by simpa using hm.2⟩

theorem lastWithId_isSome_of_mem (msgs : List Msg) (i : Nat)
    (h : i ∈ msgs.map Msg.id) : (lastWithId msgs i).isSome := by
  rw [lastWithId, List.getLast?_isSome]
  rcases List.mem_map.1 h with ⟨m, hm, hid⟩
  exact List.ne_nil_of_mem (List.mem_filter.2 ⟨hm, by simp [hid]⟩)

theorem lastWithId_append (a b : List Msg) (i : Nat) :
    lastWithId (a ++ b) i = (lastWithId b i).or (lastWithId a i) := by
  rw [lastWithId, lastWithId, lastWithId, List.filter_append, List.getLast?_append]

theorem filterMap_lastWithId_map_id (l : List Msg) :
    ∀ ks : List Nat, (∀ i ∈ ks, i ∈ l.map Msg.id) →
      (ks.filterMap (lastWithId l)).map Msg.id = ks := by
  intro ks
  induction ks with
  | nil => intro; simp
  | cons k ks ih =>
    intro h
    have hk : (lastWithId l k).isSome :=
      lastWithId_isSome_of_mem l k (h k (List.mem_cons_self k ks))
    rcases Option.isSome_iff_exists.1 hk with ⟨m, hm⟩
    rw [List.filterMap_cons, hm, List.map_cons,
      (lastWithId_eq_some l k m hm).2, ih (fun i hi => h i (List.mem_cons_of_mem k hi))]

theorem dedupeById_map_id (l : List Msg) :
    (dedupeById l).map Msg.id = firstDedup (l.map Msg.id) := by
  rw [dedupeById]
  exact filterMap_lastWithId_map_id l (firstDedup (l.map Msg.id))
    (fun i hi => (mem_firstDedup (l.map Msg.id) i).1 hi)

theorem dedupeById_nodup_ids (l : List Msg) : ((dedupeById l).map Msg.id).Nodup := by
  rw [dedupeById_map_id]
  exact firstDedup_nodup (l.map Msg.id)

theorem mem_dedupeById (l : List Msg) (m : Msg) :
    m ∈ dedupeById l ↔ lastWithId l m.id = some m := by
  constructor
  · intro h
    rcases List.mem_filterMap.1 h with ⟨i, _, hlast⟩
    have := (lastWithId_eq_some l i m hlast).2
    rw [← this] at hlast
    exact hlast
  · intro h
    have hm : m ∈ l := (lastWithId_eq_some l m.id m h).1
    refine List.mem_filterMap.2 ⟨m.id, ?_, h⟩
    exact (mem_firstDedup (l.map Msg.id) m.id).2 (List.mem_map_of_mem Msg.id hm)

theorem mem_of_mem_dedupeById (l : List Msg) (m : Msg) (h : m ∈ dedupeById l) :
    m ∈ l :=
  (lastWithId_eq_some l m.id m ((mem_dedupeById l m).1 h)).1

theorem lastWithId_eq_some_iff_of_nodup (l : List Msg) (i : Nat) (m : Msg)
    (hnd : (l.map Msg.id).Nodup) :
    lastWithId l i = some m ↔ (m ∈ l ∧ m.id = i) := by
  constructor
  · exact lastWithId_eq_some l i m
  · rintro ⟨hm, rfl⟩
    induction l with
    | nil => cases hm
    | cons x xs ih =>
      rw [List.map_cons, List.nodup_cons] at hnd
      rcases List.mem_cons.1 hm with rfl | hmem
      · have hfil : xs.filter (fun a => a.id == m.id) = [] := by
          rw [List.filter_eq_nil_iff]
          intro a ha hpa
          exact hnd.1 (by
            have : a.id = m.id := by simpa using hpa
            rw [← this]
            exact List.mem_map_of_mem Msg.id ha)
        rw [lastWithId, List.filter_cons, if_pos (by simp), hfil]
        rfl
      · have hxid : (x.id == m.id) = false := by
          by_contra hc
          rw [Bool.not_eq_false, beq_iff_eq] at hc
          exact hnd.1 (hc ▸ List.mem_map_of_mem Msg.id hmem)
        rw [lastWithId, List.filter_cons, if_neg (by simp [hxid])]
        exact ih hnd.2 hmem

theorem mem_mergedMessages (e b : List Msg) (m : Msg) :
    m ∈ mergedMessages e b ↔ lastWithId (e ++ b) m.id = some m := by
  rw [mergedMessages, mem_sortById, mem_dedupeById]

theorem mergedMessages_nodup_ids (e b : List Msg) :
    ((mergedMessages e b).map Msg.id).Nodup := by
  have hp : List.Perm ((mergedMessages e b).map Msg.id)
      ((dedupeById (e ++ b)).map Msg.id) :=
    List.Perm.map Msg.id (sortById_perm (dedupeById (e ++ b)))
  exact hp.nodup_iff.2 (dedupeById_nodup_ids (e ++ b))

theorem mergedMessages_sorted (e b : List Msg) :
    (mergedMessages e b).Pairwise (fun a c => a.id ≤ c.id) :=
  sortById_sorted (dedupeById (e ++ b))

theorem pairwise_lt_of_sorted_nodup (l : List Msg)
    (hs : l.Pairwise (fun a c => a.id ≤ c.id)) (hnd : (l.map Msg.id).Nodup) :
    l.Pairwise (fun a c => a.id < c.id) := by
  have hne : l.Pairwise (fun a c => a.id ≠ c.id) := by
    rw [List.Nodup, List.pairwise_map] at hnd
    exact hnd
  exact (hs.and hne).imp (fun h => lt_of_le_of_ne h.1 h.2)

theorem eq_of_mem_iff_sorted (l1 l2 : List Msg)
    (h1s : l1.Pairwise (fun a c => a.id ≤ c.id)) (h1n : (l1.map Msg.id).Nodup)
    (h2s : l2.Pairwise (fun a c => a.id ≤ c.id)) (h2n : (l2.map Msg.id).Nodup)
    (hmem : ∀ m, m ∈ l1 ↔ m ∈ l2) : l1 = l2 := by
  have hn1 : l1.Nodup := h1n.of_map Msg.id
  have hn2 : l2.Nodup := h2n.of_map Msg.id
  have hperm : List.Perm l1 l2 := (List.perm_ext_iff_of_nodup hn1 hn2).2 hmem
  have anti : IsAntisymm Msg (fun a c => a.id < c.id) :=
    ⟨fun a b h1 h2 => absurd h2 (Nat.lt_asymm h1)⟩
  exact @List.eq_of_perm_of_sorted Msg (fun a c => a.id < c.id) anti l1 l2 hperm
    (pairwise_lt_of_sorted_nodup l1 h1s h1n) (pairwise_lt_of_sorted_nodup l2 h2s h2n)

theorem mergedMessages_idem (e b : List Msg) :
    mergedMessages (mergedMessages e b) b = mergedMessages e b := by
  apply eq_of_mem_iff_sorted
  · exact mergedMessages_sorted (mergedMessages e b) b
  · exact mergedMessages_nodup_ids (mergedMessages e b) b
  · exact mergedMessages_sorted e b
  · exact mergedMessages_nodup_ids e b
  · intro m
    rw [mem_mergedMessages, lastWithId_append]
    cases hb : lastWithId b m.id with
    | some mb =>
        rw [Option.or]
        constructor
        · intro h
          rw [mem_mergedMessages, lastWithId_append, hb, Option.or]
          exact h
        · intro h
          rw [mem_mergedMessages, lastWithId_append, hb, Option.or] at h
          exact h
    | none =>
        rw [Option.or]
        have hiff := lastWithId_eq_some_iff_of_nodup (mergedMessages e b) m.id m
          (mergedMessages_nodup_ids e b)
        constructor
        · intro h
          have hm := (hiff.1 h).1
          exact hm
        · intro h
          apply hiff.2
          refine ⟨h, rfl⟩

theorem mem_ids_mergedMessages (e b : List Msg) (i : Nat) :
    i ∈ (mergedMessages e b).map Msg.id ↔ i ∈ (e ++ b).map Msg.id := by
  constructor
  · intro h
    rcases List.mem_map.1 h with ⟨m, hm, rfl⟩
    exact List.mem_map_of_mem Msg.id
      (mem_of_mem_dedupeById (e ++ b) m
        ((mem_sortById m (dedupeById (e ++ b))).1 hm))
  · intro h
    rcases Option.isSome_iff_exists.1 (lastWithId_isSome_of_mem (e ++ b) i h)
      with ⟨m, hm⟩
    have hmmem : m ∈ mergedMessages e b := by
      rw [mem_mergedMessages, (lastWithId_eq_some (e ++ b) i m hm).2]
      exact hm
    rw [← (lastWithId_eq_some (e ++ b) i m hm).2]
    exact List.mem_map_of_mem Msg.id hmmem

theorem newCountOf_mergedMessages (e b : List Msg) :
    newCountOf (mergedMessages e b) b = 0 := by
  rw [newCountOf, List.length_eq_zero, List.filter_eq_nil_iff]
  intro m hm
  have hmm : m.id ∈ (mergedMessages e b).map Msg.id := by
    rw [mem_ids_mergedMessages]
    exact List.mem_map_of_mem Msg.id (List.mem_append_right e hm)
  have hc : ((mergedMessages e b).map Msg.id).contains m.id = true := by
    rw [List.contains_iff_exists_mem_beq]
    exact ⟨m.id, hmm, by simp⟩
  rw [hc]
  decide

theorem newCountOf_sortById (e b : List Msg) :
    newCountOf e (sortById b) = newCountOf e b := by
  rw [newCountOf, newCountOf]
  exact ((sortById_perm b).filter _).length_eq

theorem newCountOf_eq_newIdsCard (e b : List Msg) (hnd : (b.map Msg.id).Nodup) :
    newCountOf e b = newIdsCard e b := by
  rw [newCountOf, newIdsCard]
  have h1 : (b.filter (fun m => !(e.map Msg.id).contains m.id)).map Msg.id =
      (b.map Msg.id).filter (fun i => !(e.map Msg.id).contains i) := by
    rw [List.filter_map]
    rfl
  have h2 : (b.filter (fun m => !(e.map Msg.id).contains m.id)).length =
      ((b.map Msg.id).filter (fun i => !(e.map Msg.id).contains i)).length := by
    rw [← h1, List.length_map]
  rw [h2]
  have hnd2 : ((b.map Msg.id).filter (fun i => !(e.map Msg.id).contains i)).Nodup :=
    hnd.filter _
  rw [← List.toFinset_card_of_nodup hnd2, List.toFinset_filter,
    Finset.sdiff_eq_filter]
  congr 1
  apply Finset.filter_congr
  intro i _
  simp [List.elem_iff]

theorem saveMessages_eq (et : Option (List Msg)) (msgs : List Msg) (idx : IndexDoc)
    (t : String) (now : Nat) (hne : msgs ≠ []) :
    saveMessages et msgs idx t now =
      (some
        { collectionTimestamp := now
          channelUsername := idx.channelUsername
          totalMessages := (mergedMessages (et.getD []) (sortById msgs)).length
          minIdInBatch := minIdOf (sortById msgs)
          maxIdInBatch := maxIdOf (sortById msgs)
          date := t
          messages := mergedMessages (et.getD []) (sortById msgs) },
       indexAfterSave idx (sortById msgs) (newCountOf (et.getD []) (sortById msgs))
         (minIdOf (sortById msgs)) (maxIdOf (sortById msgs))
         { filename := t ++ shardExt, date := t
           postsCount := (mergedMessages (et.getD []) (sortById msgs)).length } now) := by
  have hemp : msgs.isEmpty = false := by
    cases msgs with
    | nil => exact absurd rfl hne
    | cons x xs => rfl
  rw [saveMessages, hemp]
  rfl

theorem fetchChannelSave_eq (et : Option (List Msg)) (msgs : List Msg) (idx : IndexDoc)
    (t : String) (now : Nat) (hne : msgs ≠ []) :
    fetchChannelSave et msgs idx t now =
      (some
        { collectionTimestamp := now
          channelUsername := idx.channelUsername
          totalMessages := (mergedMessages (et.getD []) (sortById msgs)).length
          minIdInBatch := minIdOf (sortById msgs)
          maxIdInBatch := maxIdOf (sortById msgs)
          date := t
          messages := mergedMessages (et.getD []) (sortById msgs) },
       indexAfterSave idx (sortById msgs) msgs.length
         (minIdOf (sortById msgs)) (maxIdOf (sortById msgs))
         { filename := t ++ shardExt, date := t
           postsCount := (mergedMessages (et.getD []) (sortById msgs)).length } now) := by
  have hemp : msgs.isEmpty = false := by
    cases msgs with
    | nil => exact absurd rfl hne
    | cons x xs => rfl
  rw [fetchChannelSave, hemp]
  have hlen : (sortById msgs).length = msgs.length := (sortById_perm msgs).length_eq
  rw [← hlen]
  rfl

/-- Example channel name used in concrete instances. -/
def chanStr : String := "chan"

/-- Example collection-date string used in concrete instances. -/
def dayStr : String := "2025-01-01"

/-- Example text payload. -/
def exText : String := "hello"

/-- A concrete text-only message with id 1. -/
def msgA : Msg :=
  { id := 1, date := 100, text := some exText, hasMedia := false, mediaType := none }

/-- A concrete media-only message with id 2. -/
def msgB : Msg :=
  { id := 2, date := 200, text := none, hasMedia := true, mediaType := some exText }

theorem newCountOf_eq_zero_of_subset (e b : List Msg)
    (h : ∀ m ∈ b, m.id ∈ e.map Msg.id) : newCountOf e b = 0 := by
  rw [newCountOf, List.length_eq_zero, List.filter_eq_nil_iff]
  intro m hm
  have hc : (e.map Msg.id).contains m.id = true := by
    rw [List.contains_iff_exists_mem_beq]
    exact ⟨m.id, h m hm, by simp⟩
  rw [hc]
  decide

theorem newIdsCard_of_disjoint (e b : List Msg) (hnd : (b.map Msg.id).Nodup)
    (hdisj : ∀ m ∈ b, m.id ∉ e.map Msg.id) : newIdsCard e b = b.length := by
  rw [newIdsCard]
  have hsd : (b.map Msg.id).toFinset \ (e.map Msg.id).toFinset =
      (b.map Msg.id).toFinset := by
    rw [Finset.sdiff_eq_self_iff_disjoint, Finset.disjoint_left]
    intro i hi hi2
    rw [List.mem_toFinset] at hi hi2
    rcases List.mem_map.1 hi with ⟨m, hm, rfl⟩
    exact absurd hi2 (hdisj m hm)
  rw [hsd, List.toFinset_card_of_nodup hnd, List.length_map]

theorem sortById_map_id_nodup (msgs : List Msg) (h : (msgs.map Msg.id).Nodup) :
    ((sortById msgs).map Msg.id).Nodup :=
  (((sortById_perm msgs).map Msg.id).nodup_iff).2 h

/-- C1 (amended): the merge accounting, settled against both merge
implementations. The daemon's `save_messages` adds exactly the number of
genuinely new ids to `total_posts_archived` (for a batch with pairwise
distinct ids), and a batch containing no id that is new to the shard
leaves the total unchanged; `parser.py`'s `fetch_channel` instead always
adds the full batch length, which equals the new-id count only when the
batch is disjoint from the stored set. -/
theorem merge_newCount_accounting (et : Option (List Msg)) (msgs : List Msg)
    (idx : IndexDoc) (t : String) (now : Nat) :
    ((msgs.map Msg.id).Nodup →
      (saveMessages et msgs idx t now).2.totalPostsArchived =
        idx.totalPostsArchived + newIdsCard (et.getD []) msgs) ∧
    ((∀ m ∈ msgs, m.id ∈ (et.getD []).map Msg.id) →
      (saveMessages et msgs idx t now).2.totalPostsArchived =
        idx.totalPostsArchived) ∧
    ((fetchChannelSave et msgs idx t now).2.totalPostsArchived =
      idx.totalPostsArchived + msgs.length) ∧
    ((msgs.map Msg.id).Nodup → (∀ m ∈ msgs, m.id ∉ (et.getD []).map Msg.id) →
      (fetchChannelSave et msgs idx t now).2.totalPostsArchived =
        idx.totalPostsArchived + newIdsCard (et.getD []) msgs) := by
  cases hmsgs : msgs with
  | nil =>
      refine ⟨?_, ?_, ?_, ?_⟩
      · intro
        simp [saveMessages, newIdsCard]
      · intro
        simp [saveMessages]
      · simp [fetchChannelSave]
      · intro
        simp [fetchChannelSave, newIdsCard]
  | cons x xs =>
      have hne : msgs ≠ [] := by rw [hmsgs]; exact List.cons_ne_nil x xs
      rw [← hmsgs]
      have hsave := saveMessages_eq et msgs idx t now hne
      have hfcs := fetchChannelSave_eq et msgs idx t now hne
      refine ⟨?_, ?_, ?_, ?_⟩
      · intro hnd
        rw [hsave]
        show idx.totalPostsArchived + newCountOf (et.getD []) (sortById msgs) =
          idx.totalPostsArchived + newIdsCard (et.getD []) msgs
        rw [newCountOf_sortById, newCountOf_eq_newIdsCard (et.getD []) msgs hnd]
      · intro hsub
        rw [hsave]
        show idx.totalPostsArchived + newCountOf (et.getD []) (sortById msgs) =
          idx.totalPostsArchived
        rw [newCountOf_sortById,
          newCountOf_eq_zero_of_subset (et.getD []) msgs hsub]
        omega
      · rw [hfcs]
        rfl
      · intro hnd hdisj
        rw [hfcs]
        show idx.totalPostsArchived + msgs.length =
          idx.totalPostsArchived + newIdsCard (et.getD []) msgs
        rw [newIdsCard_of_disjoint (et.getD []) msgs hnd hdisj]

theorem saveMessages_shard_messages (et : Option (List Msg)) (msgs : List Msg)
    (idx : IndexDoc) (t : String) (now : Nat) (hne : msgs ≠ []) :
    ((saveMessages et msgs idx t now).1).map ShardFile.messages =
      some (mergedMessages (et.getD []) (sortById msgs)) := by
  rw [saveMessages_eq et msgs idx t now hne]
  rfl

theorem saveMessages_total (et : Option (List Msg)) (msgs : List Msg)
    (idx : IndexDoc) (t : String) (now : Nat) (hne : msgs ≠ []) :
    (saveMessages et msgs idx t now).2.totalPostsArchived =
      idx.totalPostsArchived + newCountOf (et.getD []) (sortById msgs) := by
  rw [saveMessages_eq et msgs idx t now hne]
  rfl

theorem mem_mergedMessages_iff (e b : List Msg) (m : Msg) :
    m ∈ mergedMessages e b ↔
      (lastWithId b m.id = some m ∨
        (lastWithId b m.id = none ∧ lastWithId e m.id = some m)) := by
  rw [mem_mergedMessages, lastWithId_append]
  cases hb : lastWithId b m.id with
  | some mb => simp [Option.or]
  | none => simp [Option.or]

/-- C2: the merge of a batch into a shard is idempotent: merging the same
batch again on top of the first merge's result leaves the stored messages
unchanged, adds nothing to `total_posts_archived` (the second pass's
`new_count` is 0), and the stored set is the union of old and new records
keyed by id, the newly merged record winning any id collision. The
one-shot `fetch_channel` merge produces the same stored content. -/
theorem merge_idempotent (et : Option (List Msg)) (msgs : List Msg) (idx : IndexDoc)
    (t : String) (now1 now2 : Nat) (hne : msgs ≠ []) :
    ((saveMessages (((saveMessages et msgs idx t now1).1).map ShardFile.messages) msgs
        ((saveMessages et msgs idx t now1).2) t now2).1).map ShardFile.messages =
      ((saveMessages et msgs idx t now1).1).map ShardFile.messages ∧
    (saveMessages (((saveMessages et msgs idx t now1).1).map ShardFile.messages) msgs
        ((saveMessages et msgs idx t now1).2) t now2).2.totalPostsArchived =
      (saveMessages et msgs idx t now1).2.totalPostsArchived ∧
    (∀ sh1 : ShardFile, (saveMessages et msgs idx t now1).1 = some sh1 →
      newCountOf sh1.messages (sortById msgs) = 0 ∧
      (∀ m : Msg, m ∈ sh1.messages ↔
        (lastWithId (sortById msgs) m.id = some m ∨
          (lastWithId (sortById msgs) m.id = none ∧
            lastWithId (et.getD []) m.id = some m)))) ∧
    ((fetchChannelSave et msgs idx t now1).1).map ShardFile.messages =
      ((saveMessages et msgs idx t now1).1).map ShardFile.messages := by
  refine ⟨?_, ?_, ?_, ?_⟩
  · rw [saveMessages_shard_messages _ msgs _ t now2 hne,
      saveMessages_shard_messages et msgs idx t now1 hne]
    simp only [Option.getD_some]
    rw [mergedMessages_idem]
  · rw [saveMessages_total _ msgs _ t now2 hne,
      saveMessages_shard_messages et msgs idx t now1 hne]
    simp only [Option.getD_some]
    rw [newCountOf_mergedMessages]
    omega
  · intro sh1 h1
    rw [saveMessages_eq et msgs idx t now1 hne] at h1
    have hmsg : sh1.messages = mergedMessages (et.getD []) (sortById msgs) := by
      have := Option.some.inj h1
      rw [← this]
    rw [hmsg]
    exact ⟨newCountOf_mergedMessages (et.getD []) (sortById msgs),
      fun m => mem_mergedMessages_iff (et.getD []) (sortById msgs) m⟩
  · rw [fetchChannelSave_eq et msgs idx t now1 hne,
      saveMessages_eq et msgs idx t now1 hne]

/-- C1, counterexample: in `parser.py`'s `fetch_channel`, merging a batch
whose single record is already stored in today's shard increases
`total_posts_archived` by the batch length 1, not by the number of ids new
to the shard, which is 0 — so the merge accounting claim is false as
stated for this merge implementation. -/
theorem merge_newCount_claim_cex :
    (fetchChannelSave (some [msgA]) [msgA] (freshIndex chanStr) dayStr
        0).2.totalPostsArchived ≠
      (freshIndex chanStr).totalPostsArchived + newIdsCard [msgA] [msgA] := by
  decide

/-- C1, witness: the daemon accounting branch of
`merge_newCount_accounting` applied to a concrete merge of the fresh
batch `[msgB]` into a shard holding `[msgA]`. -/
theorem merge_newCount_accounting_witness :
    (([msgB] : List Msg).map Msg.id).Nodup ∧
    (saveMessages (some [msgA]) [msgB] (freshIndex chanStr) dayStr
        0).2.totalPostsArchived =
      (freshIndex chanStr).totalPostsArchived + newIdsCard [msgA] [msgB] :=
  ⟨by decide,
    (merge_newCount_accounting (some [msgA]) [msgB] (freshIndex chanStr) dayStr 0).1
      (by decide)⟩

/-- C2, witness: `merge_idempotent` applied to the concrete merge of
`[msgB]` into a shard holding `[msgA]`: re-merging the same batch leaves
the stored messages and the archived total unchanged. -/
theorem merge_idempotent_witness :
    ([msgB] : List Msg) ≠ [] ∧
    ((saveMessages (((saveMessages (some [msgA]) [msgB] (freshIndex chanStr) dayStr
            0).1).map ShardFile.messages) [msgB]
        ((saveMessages (some [msgA]) [msgB] (freshIndex chanStr) dayStr 0).2)
        dayStr 7).1).map ShardFile.messages =
      ((saveMessages (some [msgA]) [msgB] (freshIndex chanStr) dayStr
          0).1).map ShardFile.messages :=
  ⟨by decide,
    (merge_idempotent (some [msgA]) [msgB] (freshIndex chanStr) dayStr 0 7
      (by decide)).1⟩

/-- The records one attempt collected before its outcome was reached. -/
def outcomeMsgs : AttemptOutcome → List Msg
  | .success s => collectStream s
  | .floodWait s _ => collectStream s
  | .failure s => collectStream s

/-- An attempt that raised a non-rate-limit exception before yielding any
usable record: the only situation in which `fetch_messages_batch`
propagates an exception. -/
def isEmptyFailure : AttemptOutcome → Bool
  | .failure s => (collectStream s).isEmpty
  | _ => false

/-- An attempt that raised a rate-limit signal. -/
def isFloodOutcome : AttemptOutcome → Bool
  | .floodWait _ _ => true
  | _ => false

/-- The post-retry merge step of `fetch_messages_batch` when records were
already collected: propagate an exception from the resumed call, otherwise
concatenate and deduplicate by id; either way the backoff sleep performed
before the resumed call is prepended. -/
def resumeMerge (msgs : List Msg) (wait : ℚ) (r : FetchResult) : FetchResult :=
  match r.result with
  | .ok rem => { result := .ok (dedupeById (msgs ++ rem)), sleeps := wait :: r.sleeps }
  | .error e => { result := .error e, sleeps := wait :: r.sleeps }

theorem fetchMessagesBatch_sleep_head (u : Upstream) (m M l : Option Nat) (k : Nat)
    (s : List (Option RawMsg)) (w : Nat)
    (hu : u m M l k = .floodWait s w) (hk : k < maxRetries) :
    (fetchMessagesBatch u m M l k).sleeps.head? =
      some ((w : ℚ) * (3 / 2 : ℚ) ^ k) := by
  rw [fetchMessagesBatch, hu]
  dsimp only
  rw [if_neg (by omega : ¬ maxRetries ≤ k)]
  split
  · rfl
  · split
    · split <;> rfl
    · split <;> rfl

theorem fetchMessagesBatch_sleeps_length (u : Upstream) :
    ∀ (m M l : Option Nat) (k : Nat),
      (fetchMessagesBatch u m M l k).sleeps.length ≤ maxRetries - k := by
  intro m M l k
  induction m, M, l, k using fetchMessagesBatch.induct u with
  | case1 m M l k s hu =>
      rw [fetchMessagesBatch, hu]
      simp
  | case2 m M l k s hu msgs hemp =>
      rw [fetchMessagesBatch, hu]
      dsimp only
      rw [if_pos hemp]
      simp
  | case3 m M l k s hu msgs hemp =>
      rw [fetchMessagesBatch, hu]
      dsimp only
      rw [if_neg hemp]
      simp
  | case4 m M l k s w hu hk =>
      rw [fetchMessagesBatch, hu]
      dsimp only
      rw [if_pos hk]
      simp
  | case5 m M l k s w hu msgs hk hemp ih =>
      rw [fetchMessagesBatch, hu]
      dsimp only
      rw [if_neg hk, if_pos hemp]
      simp only [List.length_cons, maxRetries] at *
      omega
  | case6 m M l k s w hu msgs hk hemp newLimit hM r rem hr ih =>
      rw [fetchMessagesBatch, hu]
      dsimp only
      rw [if_neg hk, if_neg hemp, if_pos hM, hr]
      show (fetchMessagesBatch u m (some (minIdOf msgs)) newLimit (k + 1)).sleeps.length + 1 ≤
        maxRetries - k
      have hk2 : k + 1 ≤ maxRetries := Nat.lt_of_not_le hk
      omega
  | case7 m M l k s w hu msgs hk hemp newLimit hM r e hr ih =>
      rw [fetchMessagesBatch, hu]
      dsimp only
      rw [if_neg hk, if_neg hemp, if_pos hM, hr]
      show (fetchMessagesBatch u m (some (minIdOf msgs)) newLimit (k + 1)).sleeps.length + 1 ≤
        maxRetries - k
      have hk2 : k + 1 ≤ maxRetries := Nat.lt_of_not_le hk
      omega
  | case8 m M l k s w hu msgs hk hemp newLimit hM r rem hr ih =>
      rw [fetchMessagesBatch, hu]
      dsimp only
      rw [if_neg hk, if_neg hemp, if_neg hM, hr]
      show (fetchMessagesBatch u (some (maxIdOf msgs)) M newLimit (k + 1)).sleeps.length + 1 ≤
        maxRetries - k
      have hk2 : k + 1 ≤ maxRetries := Nat.lt_of_not_le hk
      omega
  | case9 m M l k s w hu msgs hk hemp newLimit hM r e hr ih =>
      rw [fetchMessagesBatch, hu]
      dsimp only
      rw [if_neg hk, if_neg hemp, if_neg hM, hr]
      show (fetchMessagesBatch u (some (maxIdOf msgs)) M newLimit (k + 1)).sleeps.length + 1 ≤
        maxRetries - k
      have hk2 : k + 1 ≤ maxRetries := Nat.lt_of_not_le hk
      omega

theorem fetchMessagesBatch_ok (u : Upstream)
    (h : ∀ (m M l : Option Nat) (k : Nat), isEmptyFailure (u m M l k) = false) :
    ∀ (m M l : Option Nat) (k : Nat),
      ∃ msgs, (fetchMessagesBatch u m M l k).result = .ok msgs := by
  intro m M l k
  induction m, M, l, k using fetchMessagesBatch.induct u with
  | case1 m M l k s hu =>
      rw [fetchMessagesBatch, hu]
      exact ⟨collectStream s, rfl⟩
  | case2 m M l k s hu msgs hemp =>
      have := h m M l k
      rw [hu, isEmptyFailure] at this
      rw [hemp] at this
      cases this
  | case3 m M l k s hu msgs hemp =>
      rw [fetchMessagesBatch, hu]
      dsimp only
      rw [if_neg hemp]
      exact ⟨collectStream s, rfl⟩
  | case4 m M l k s w hu hk =>
      rw [fetchMessagesBatch, hu]
      dsimp only
      rw [if_pos hk]
      exact ⟨collectStream s, rfl⟩
  | case5 m M l k s w hu msgs hk hemp ih =>
      rw [fetchMessagesBatch, hu]
      dsimp only
      rw [if_neg hk, if_pos hemp]
      exact ih
  | case6 m M l k s w hu msgs hk hemp newLimit hM r rem hr ih =>
      rw [fetchMessagesBatch, hu]
      dsimp only
      rw [if_neg hk, if_neg hemp, if_pos hM, hr]
      exact ⟨dedupeById (msgs ++ rem), rfl⟩
  | case7 m M l k s w hu msgs hk hemp newLimit hM r e hr ih =>
      rcases ih with ⟨msgs2, hok⟩
      rw [hok] at hr
      cases hr
  | case8 m M l k s w hu msgs hk hemp newLimit hM r rem hr ih =>
      rw [fetchMessagesBatch, hu]
      dsimp only
      rw [if_neg hk, if_neg hemp, if_neg hM, hr]
      exact ⟨dedupeById (msgs ++ rem), rfl⟩
  | case9 m M l k s w hu msgs hk hemp newLimit hM r e hr ih =>
      rcases ih with ⟨msgs2, hok⟩
      rw [hok] at hr
      cases hr

theorem fetchMessagesBatch_failure_eq (u : Upstream) (m M l : Option Nat) (k : Nat)
    (s : List (Option RawMsg)) (hu : u m M l k = .failure s) :
    fetchMessagesBatch u m M l k =
      if (collectStream s).isEmpty then { result := .error (), sleeps := [] }
      else { result := .ok (collectStream s), sleeps := [] } := by
  rw [fetchMessagesBatch, hu]

theorem fetchMessagesBatch_resume (u : Upstream) (m M l : Option Nat) (k : Nat)
    (s : List (Option RawMsg)) (w : Nat)
    (hu : u m M l k = .floodWait s w) (hk : k < maxRetries)
    (hne : (collectStream s).isEmpty = false) :
    fetchMessagesBatch u m M l k =
      if M.isSome then
        resumeMerge (collectStream s) ((w : ℚ) * (3 / 2 : ℚ) ^ k)
          (fetchMessagesBatch u m (some (minIdOf (collectStream s)))
            (remainingLimit l (collectStream s).length) (k + 1))
      else
        resumeMerge (collectStream s) ((w : ℚ) * (3 / 2 : ℚ) ^ k)
          (fetchMessagesBatch u (some (maxIdOf (collectStream s))) M
            (remainingLimit l (collectStream s).length) (k + 1)) := by
  rw [fetchMessagesBatch, hu]
  dsimp only
  rw [if_neg (by omega : ¬ maxRetries ≤ k),
    if_neg (by simp [hne] : ¬ ((collectStream s).isEmpty = true))]
  by_cases hM : M.isSome = true
  · rw [if_pos hM, if_pos hM]
    rfl
  · rw [if_neg hM, if_neg hM]
    rfl

theorem fetchMessagesBatch_nodup (u : Upstream)
    (h : ∀ (m M l : Option Nat) (k : Nat),
      ((outcomeMsgs (u m M l k)).map Msg.id).Nodup) :
    ∀ (m M l : Option Nat) (k : Nat) (msgs : List Msg),
      (fetchMessagesBatch u m M l k).result = .ok msgs → (msgs.map Msg.id).Nodup := by
  intro m M l k
  induction m, M, l, k using fetchMessagesBatch.induct u with
  | case1 m M l k s hu =>
      intro msgs hok
      rw [fetchMessagesBatch, hu] at hok
      have h2 := h m M l k
      rw [hu] at h2
      simp only [outcomeMsgs] at h2
      rw [← Except.ok.inj hok]
      exact h2
  | case2 m M l k s hu msgs hemp =>
      intro msgs2 hok
      rw [fetchMessagesBatch, hu] at hok
      dsimp only at hok
      rw [if_pos hemp] at hok
      exact absurd hok (by simp)
  | case3 m M l k s hu msgs hemp =>
      intro msgs2 hok
      rw [fetchMessagesBatch, hu] at hok
      dsimp only at hok
      rw [if_neg hemp] at hok
      have h2 := h m M l k
      rw [hu] at h2
      simp only [outcomeMsgs] at h2
      rw [← Except.ok.inj hok]
      exact h2
  | case4 m M l k s w hu hk =>
      intro msgs2 hok
      rw [fetchMessagesBatch, hu] at hok
      dsimp only at hok
      rw [if_pos hk] at hok
      have h2 := h m M l k
      rw [hu] at h2
      simp only [outcomeMsgs] at h2
      rw [← Except.ok.inj hok]
      exact h2
  | case5 m M l k s w hu msgs hk hemp ih =>
      intro msgs2 hok
      rw [fetchMessagesBatch, hu] at hok
      dsimp only at hok
      rw [if_neg hk, if_pos hemp] at hok
      exact ih msgs2 hok
  | case6 m M l k s w hu msgs hk hemp newLimit hM r rem hr ih =>
      intro msgs2 hok
      rw [fetchMessagesBatch, hu] at hok
      dsimp only at hok
      rw [if_neg hk, if_neg hemp, if_pos hM, hr] at hok
      rw [← Except.ok.inj hok]
      exact dedupeById_nodup_ids _
  | case7 m M l k s w hu msgs hk hemp newLimit hM r e hr ih =>
      intro msgs2 hok
      rw [fetchMessagesBatch, hu] at hok
      dsimp only at hok
      rw [if_neg hk, if_neg hemp, if_pos hM, hr] at hok
      exact absurd hok (by simp)
  | case8 m M l k s w hu msgs hk hemp newLimit hM r rem hr ih =>
      intro msgs2 hok
      rw [fetchMessagesBatch, hu] at hok
      dsimp only at hok
      rw [if_neg hk, if_neg hemp, if_neg hM, hr] at hok
      rw [← Except.ok.inj hok]
      exact dedupeById_nodup_ids _
  | case9 m M l k s w hu msgs hk hemp newLimit hM r e hr ih =>
      intro msgs2 hok
      rw [fetchMessagesBatch, hu] at hok
      dsimp only at hok
      rw [if_neg hk, if_neg hemp, if_neg hM, hr] at hok
      exact absurd hok (by simp)

/-- A record carries a non-null text or a present media indicator. -/
def textOrMedia (m : Msg) : Bool :=
  m.text.isSome || m.hasMedia

theorem collectStream_textOrMedia (s : List (Option RawMsg)) :
    ∀ m ∈ collectStream s, textOrMedia m = true := by
  intro m hm
  rw [collectStream] at hm
  rcases List.mem_map.1 hm with ⟨r, hr, rfl⟩
  rw [List.mem_filter] at hr
  have h2 := hr.2
  rw [keepMessage] at h2
  simpa [textOrMedia, normalizeMsg] using h2

theorem fetchMessagesBatch_textOrMedia (u : Upstream) :
    ∀ (m M l : Option Nat) (k : Nat) (msgs : List Msg),
      (fetchMessagesBatch u m M l k).result = .ok msgs →
        ∀ x ∈ msgs, textOrMedia x = true := by
  intro m M l k
  induction m, M, l, k using fetchMessagesBatch.induct u with
  | case1 m M l k s hu =>
      intro msgs hok
      rw [fetchMessagesBatch, hu] at hok
      rw [← Except.ok.inj hok]
      exact collectStream_textOrMedia s
  | case2 m M l k s hu msgs hemp =>
      intro msgs2 hok
      rw [fetchMessagesBatch, hu] at hok
      dsimp only at hok
      rw [if_pos hemp] at hok
      exact absurd hok (by simp)
  | case3 m M l k s hu msgs hemp =>
      intro msgs2 hok
      rw [fetchMessagesBatch, hu] at hok
      dsimp only at hok
      rw [if_neg hemp] at hok
      rw [← Except.ok.inj hok]
      exact collectStream_textOrMedia s
  | case4 m M l k s w hu hk =>
      intro msgs2 hok
      rw [fetchMessagesBatch, hu] at hok
      dsimp only at hok
      rw [if_pos hk] at hok
      rw [← Except.ok.inj hok]
      exact collectStream_textOrMedia s
  | case5 m M l k s w hu msgs hk hemp ih =>
      intro msgs2 hok
      rw [fetchMessagesBatch, hu] at hok
      dsimp only at hok
      rw [if_neg hk, if_pos hemp] at hok
      exact ih msgs2 hok
  | case6 m M l k s w hu msgs hk hemp newLimit hM r rem hr ih =>
      intro msgs2 hok
      rw [fetchMessagesBatch, hu] at hok
      dsimp only at hok
      rw [if_neg hk, if_neg hemp, if_pos hM, hr] at hok
      rw [← Except.ok.inj hok]
      intro x hx
      rcases List.mem_append.1
        (mem_of_mem_dedupeById _ x hx) with hx2 | hx2
      · exact collectStream_textOrMedia s x hx2
      · exact ih rem hr x hx2
  | case7 m M l k s w hu msgs hk hemp newLimit hM r e hr ih =>
      intro msgs2 hok
      rw [fetchMessagesBatch, hu] at hok
      dsimp only at hok
      rw [if_neg hk, if_neg hemp, if_pos hM, hr] at hok
      exact absurd hok (by simp)
  | case8 m M l k s w hu msgs hk hemp newLimit hM r rem hr ih =>
      intro msgs2 hok
      rw [fetchMessagesBatch, hu] at hok
      dsimp only at hok
      rw [if_neg hk, if_neg hemp, if_neg hM, hr] at hok
      rw [← Except.ok.inj hok]
      intro x hx
      rcases List.mem_append.1
        (mem_of_mem_dedupeById _ x hx) with hx2 | hx2
      · exact collectStream_textOrMedia s x hx2
      · exact ih rem hr x hx2
  | case9 m M l k s w hu msgs hk hemp newLimit hM r e hr ih =>
      intro msgs2 hok
      rw [fetchMessagesBatch, hu] at hok
      dsimp only at hok
      rw [if_neg hk, if_neg hemp, if_neg hM, hr] at hok
      exact absurd hok (by simp)

theorem fetchNewMessages_success_eq (su : SimpleUpstream) (lastId fuel att : Nat)
    (s : List (Option RawMsg)) (hu : su lastId att = .success s) :
    fetchNewMessages su lastId (fuel + 1) att = some (collectStream s, []) := by
  rw [fetchNewMessages, hu]

theorem fetchNewMessages_failure_eq (su : SimpleUpstream) (lastId fuel att : Nat)
    (s : List (Option RawMsg)) (hu : su lastId att = .failure s) :
    fetchNewMessages su lastId (fuel + 1) att = some (collectStream s, []) := by
  rw [fetchNewMessages, hu]

theorem fetchNewMessages_flood_eq (su : SimpleUpstream) (lastId fuel att : Nat)
    (s : List (Option RawMsg)) (w : Nat) (hu : su lastId att = .floodWait s w) :
    fetchNewMessages su lastId (fuel + 1) att =
      (match fetchNewMessages su lastId fuel (att + 1) with
        | none => none
        | some r => some (r.1, (w : ℚ) :: r.2)) := by
  rw [fetchNewMessages, hu]
  rcases fetchNewMessages su lastId fuel (att + 1) with _ | ⟨msgs, sleeps⟩ <;> rfl

theorem fetchOldMessages_flood_eq (su : SimpleUpstream) (minK lim : Nat)
    (s : List (Option RawMsg)) (w : Nat) (hu : su minK lim = .floodWait s w) :
    fetchOldMessages su minK lim = (collectStream s, [(w : ℚ)]) := by
  rw [fetchOldMessages, hu]

theorem fetchOldMessages_failure_eq (su : SimpleUpstream) (minK lim : Nat)
    (s : List (Option RawMsg)) (hu : su minK lim = .failure s) :
    fetchOldMessages su minK lim = (collectStream s, []) := by
  rw [fetchOldMessages, hu]

theorem fetchNewMessages_textOrMedia (su : SimpleUpstream) (lastId : Nat) :
    ∀ (fuel att : Nat) (r : List Msg × List ℚ),
      fetchNewMessages su lastId fuel att = some r →
        ∀ x ∈ r.1, textOrMedia x = true := by
  intro fuel
  induction fuel with
  | zero =>
      intro att r h
      rw [fetchNewMessages] at h
      cases h
  | succ fuel ih =>
      intro att r h
      cases hu : su lastId att with
      | success s =>
          rw [fetchNewMessages_success_eq su lastId fuel att s hu] at h
          rw [← Option.some.inj h]
          exact fun x hx => collectStream_textOrMedia s x hx
      | failure s =>
          rw [fetchNewMessages_failure_eq su lastId fuel att s hu] at h
          rw [← Option.some.inj h]
          exact fun x hx => collectStream_textOrMedia s x hx
      | floodWait s w =>
          rw [fetchNewMessages_flood_eq su lastId fuel att s w hu] at h
          cases hrec : fetchNewMessages su lastId fuel (att + 1) with
          | none =>
              rw [hrec] at h
              cases h
          | some r2 =>
              rw [hrec] at h
              rw [← Option.some.inj h]
              exact fun x hx => ih (att + 1) r2 hrec x hx

theorem fetchOldMessages_textOrMedia (su : SimpleUpstream) (minK lim : Nat) :
    ∀ x ∈ (fetchOldMessages su minK lim).1, textOrMedia x = true := by
  rw [fetchOldMessages]
  cases su minK lim <;> exact fun x hx => collectStream_textOrMedia _ x hx

/-- C3 (amended): the retry and backoff behaviour of the three fetchers.
In `parser.py`'s `fetch_messages_batch`, a rate-limit signal of wait `w`
at retry attempt `k < 3` causes a sleep of exactly `w * 1.5 ^ k` before
the next attempt, at most 3 retries are performed in total, and when every
attempt is rate-limited the call still returns its accumulated records
instead of raising. The daemon's `fetch_new_messages` instead sleeps
exactly `w` with no backoff multiplier and no retry ceiling, restarting
from scratch and discarding the partial stream; `fetch_old_messages`
sleeps `w` once and returns the partial batch without retrying at all. -/
theorem retry_backoff_policy (u : Upstream) (su : SimpleUpstream)
    (m M l : Option Nat) (k lastId minK lim att fuel : Nat)
    (s : List (Option RawMsg)) (w : Nat) :
    (u m M l k = .floodWait s w → k < maxRetries →
      (fetchMessagesBatch u m M l k).sleeps.head? =
        some ((w : ℚ) * (3 / 2 : ℚ) ^ k)) ∧
    ((fetchMessagesBatch u m M l 0).sleeps.length ≤ maxRetries) ∧
    ((∀ (m2 M2 l2 : Option Nat) (k2 : Nat), isFloodOutcome (u m2 M2 l2 k2) = true) →
      ∃ msgs, (fetchMessagesBatch u m M l k).result = .ok msgs) ∧
    (su lastId att = .floodWait s w →
      fetchNewMessages su lastId (fuel + 1) att =
        (match fetchNewMessages su lastId fuel (att + 1) with
          | none => none
          | some r => some (r.1, (w : ℚ) :: r.2))) ∧
    (su minK lim = .floodWait s w →
      fetchOldMessages su minK lim = (collectStream s, [(w : ℚ)])) := by
  refine ⟨?_, ?_, ?_, ?_, ?_⟩
  · intro hu hk
    exact fetchMessagesBatch_sleep_head u m M l k s w hu hk
  · have := fetchMessagesBatch_sleeps_length u m M l 0
    simpa using this
  · intro hflood
    apply fetchMessagesBatch_ok
    intro m2 M2 l2 k2
    cases hout : u m2 M2 l2 k2 with
    | success s2 => simp [isEmptyFailure]
    | floodWait s2 w2 => simp [isEmptyFailure]
    | failure s2 =>
        have := hflood m2 M2 l2 k2
        rw [hout] at this
        simp [isFloodOutcome] at this
  · intro hu
    exact fetchNewMessages_flood_eq su lastId fuel att s w hu
  · intro hu
    exact fetchOldMessages_flood_eq su minK lim s w hu

/-- An upstream oracle for the daemon fetchers that is rate-limited with
wait 2 on attempts 0 and 1 and succeeds with an empty stream afterwards. -/
def floodTwiceOracle : SimpleUpstream := fun _ att =>
  if att ≤ 1 then AttemptOutcome.floodWait [] 2 else AttemptOutcome.success []

/-- C3, counterexample: the daemon's `fetch_new_messages`, rate-limited at
attempts 0 and 1 with wait 2, sleeps `[2, 2]` — its second sleep is the
plain mandated wait, not the `2 * 1.5 ^ 1 = 3` the claim mandates for
every fetch operation. -/
theorem retry_backoff_claim_cex :
    fetchNewMessages floodTwiceOracle 0 3 0 = some ([], [(2 : ℚ), (2 : ℚ)]) ∧
    ((2 : ℚ) ≠ (2 : ℚ) * (3 / 2 : ℚ) ^ (1 : Nat)) := by
  constructor
  · decide
  · norm_num

/-- An upstream oracle for `fetch_messages_batch` that is rate-limited
with wait 5 on every attempt. -/
def alwaysFloodOracle : Upstream := fun _ _ _ _ => AttemptOutcome.floodWait [] 5

/-- C3, witness: `retry_backoff_policy` on the always-rate-limited oracle:
the first backoff sleep is `5 * 1.5 ^ 0`, and the exhausted call returns a
batch rather than raising. -/
theorem retry_backoff_policy_witness :
    ((fetchMessagesBatch alwaysFloodOracle none none none 0).sleeps.head? =
      some ((5 : ℚ) * (3 / 2 : ℚ) ^ (0 : Nat))) ∧
    (∃ msgs, (fetchMessagesBatch alwaysFloodOracle none none none 0).result =
      .ok msgs) :=
  ⟨(retry_backoff_policy alwaysFloodOracle floodTwiceOracle none none none
      0 0 0 0 0 0 [] 5).1 rfl (by decide),
    (retry_backoff_policy alwaysFloodOracle floodTwiceOracle none none none
      0 0 0 0 0 0 [] 5).2.2.1 (fun _ _ _ _ => rfl)⟩

/-- C4: on a rate-limited retry with records already collected,
`fetch_messages_batch` resumes with the narrowed bound — upper bound
`min(collected ids)` when travelling backwards (`max_id` present), lower
bound `max(collected ids)` when travelling forwards — and the records
accumulated across attempts are deduplicated by id, so any batch the call
returns has pairwise distinct ids whenever each single attempt yields
distinct ids. -/
theorem retry_resume_bounds (u : Upstream) (m M l : Option Nat) (k : Nat)
    (s : List (Option RawMsg)) (w : Nat) :
    (u m M l k = .floodWait s w → k < maxRetries →
      (collectStream s).isEmpty = false →
      fetchMessagesBatch u m M l k =
        if M.isSome then
          resumeMerge (collectStream s) ((w : ℚ) * (3 / 2 : ℚ) ^ k)
            (fetchMessagesBatch u m (some (minIdOf (collectStream s)))
              (remainingLimit l (collectStream s).length) (k + 1))
        else
          resumeMerge (collectStream s) ((w : ℚ) * (3 / 2 : ℚ) ^ k)
            (fetchMessagesBatch u (some (maxIdOf (collectStream s))) M
              (remainingLimit l (collectStream s).length) (k + 1))) ∧
    ((∀ (m2 M2 l2 : Option Nat) (k2 : Nat),
        ((outcomeMsgs (u m2 M2 l2 k2)).map Msg.id).Nodup) →
      ∀ msgs, (fetchMessagesBatch u m M l k).result = .ok msgs →
        (msgs.map Msg.id).Nodup) :=
  ⟨fun hu hk hne => fetchMessagesBatch_resume u m M l k s w hu hk hne,
    fun h msgs hok => fetchMessagesBatch_nodup u h m M l k msgs hok⟩

/-- A raw upstream message with id 7 and a text. -/
def rawA : RawMsg := { id := 7, date := 50, text := some exText, media := none }

/-- A raw upstream message with id 9 and media. -/
def rawB : RawMsg := { id := 9, date := 60, text := none, media := some exText }

/-- An oracle that is rate-limited on attempt 0 after yielding two records
and succeeds with an empty stream on every later attempt. -/
def floodThenDoneOracle : Upstream := fun _ _ _ k =>
  if k = 0 then AttemptOutcome.floodWait [some rawA, some rawB] 4
  else AttemptOutcome.success []

/-- C4, witness: `retry_resume_bounds` on a concrete backward fetch
(`max_id = 20`) rate-limited after collecting ids 7 and 9: the call
resumes from upper bound `min(7, 9) = 7` and returns the deduplicated
records. -/
theorem retry_resume_bounds_witness :
    fetchMessagesBatch floodThenDoneOracle none (some 20) none 0 =
      resumeMerge (collectStream [some rawA, some rawB])
        ((4 : ℚ) * (3 / 2 : ℚ) ^ (0 : Nat))
        (fetchMessagesBatch floodThenDoneOracle none (some (minIdOf
          (collectStream [some rawA, some rawB])))
          (remainingLimit none (collectStream [some rawA, some rawB]).length) 1) := by
  have h := (retry_resume_bounds floodThenDoneOracle none (some 20) none 0
    [some rawA, some rawB] 4).1 rfl (by decide) (by decide)
  simpa using h

/-- C5 (amended): `parser.py`'s `fetch_messages_batch` hit by a
non-rate-limit transient failure returns the partial batch when at least
one record was collected and propagates the failure when none was; the
daemon's `fetch_new_messages` and `fetch_old_messages` never propagate:
they log and return the (possibly empty) partial batch. -/
theorem transient_failure_handling (u : Upstream) (su : SimpleUpstream)
    (m M l : Option Nat) (k lastId minK lim att fuel : Nat)
    (s : List (Option RawMsg)) :
    (u m M l k = .failure s → (collectStream s).isEmpty = false →
      fetchMessagesBatch u m M l k =
        { result := .ok (collectStream s), sleeps := [] }) ∧
    (u m M l k = .failure s → (collectStream s).isEmpty = true →
      fetchMessagesBatch u m M l k =
        { result := .error (), sleeps := [] }) ∧
    (su lastId att = .failure s →
      fetchNewMessages su lastId (fuel + 1) att = some (collectStream s, [])) ∧
    (su minK lim = .failure s →
      fetchOldMessages su minK lim = (collectStream s, [])) := by
  refine ⟨?_, ?_, ?_, ?_⟩
  · intro hu hne
    rw [fetchMessagesBatch_failure_eq u m M l k s hu, hne]
    rfl
  · intro hu hemp
    rw [fetchMessagesBatch_failure_eq u m M l k s hu, hemp]
    rfl
  · intro hu
    exact fetchNewMessages_failure_eq su lastId fuel att s hu
  · intro hu
    exact fetchOldMessages_failure_eq su minK lim s hu

/-- An upstream oracle that raises a non-rate-limit failure immediately,
before any record is yielded, on every attempt. -/
def failAlwaysOracle : SimpleUpstream := fun _ _ => AttemptOutcome.failure []

/-- C5, counterexample: the daemon's fetchers hit by a transient failure
with nothing collected return a normal empty batch — `some ([], [])`, a
plain value, never a propagated exception — instead of propagating the
failure to the calling loop as the claim requires of every fetch
operation. -/
theorem transient_failure_claim_cex :
    fetchNewMessages failAlwaysOracle 0 1 0 = some ([], []) ∧
    fetchOldMessages failAlwaysOracle 5 10 = ([], []) := by
  constructor
  · rfl
  · rfl

/-- An upstream oracle that fails after yielding one record. -/
def failAfterOneOracle : Upstream := fun _ _ _ _ =>
  AttemptOutcome.failure [some rawA]

/-- C5, witness: `transient_failure_handling` on a concrete failed attempt
that had collected one record: the partial batch is returned, not
raised. -/
theorem transient_failure_handling_witness :
    fetchMessagesBatch failAfterOneOracle none none none 0 =
      { result := .ok (collectStream [some rawA]), sleeps := [] } :=
  (transient_failure_handling failAfterOneOracle failAlwaysOracle none none none
    0 0 0 0 0 0 [some rawA]).1 rfl (by decide)

/-- C10: every record in a batch returned by any of the three fetch
operations has a non-null text or a present media indicator — upstream
messages with neither are skipped during fetching — and merging batches of
such records into a shard stores only such records. -/
theorem fetched_records_text_or_media (u : Upstream) (su : SimpleUpstream) :
    (∀ (m M l : Option Nat) (k : Nat) (msgs : List Msg),
      (fetchMessagesBatch u m M l k).result = .ok msgs →
        ∀ x ∈ msgs, textOrMedia x = true) ∧
    (∀ (lastId fuel att : Nat) (r : List Msg × List ℚ),
      fetchNewMessages su lastId fuel att = some r →
        ∀ x ∈ r.1, textOrMedia x = true) ∧
    (∀ (minK lim : Nat), ∀ x ∈ (fetchOldMessages su minK lim).1,
      textOrMedia x = true) ∧
    (∀ (et : Option (List Msg)) (batch : List Msg) (idx : IndexDoc) (t : String)
      (now : Nat) (sh : ShardFile),
      (saveMessages et batch idx t now).1 = some sh →
      (∀ x ∈ et.getD [], textOrMedia x = true) →
      (∀ x ∈ batch, textOrMedia x = true) →
      ∀ x ∈ sh.messages, textOrMedia x = true) := by
  refine ⟨?_, ?_, ?_, ?_⟩
  · intro m M l k msgs hok
    exact fetchMessagesBatch_textOrMedia u m M l k msgs hok
  · intro lastId fuel att r h
    exact fetchNewMessages_textOrMedia su lastId fuel att r h
  · intro minK lim
    exact fetchOldMessages_textOrMedia su minK lim
  · intro et batch idx t now sh hsh het hbatch x hx
    have hbne : batch ≠ [] := by
      intro hb
      rw [hb] at hsh
      simp [saveMessages] at hsh
    rw [saveMessages_eq et batch idx t now hbne] at hsh
    have hmsg : sh.messages = mergedMessages (et.getD []) (sortById batch) := by
      have := Option.some.inj hsh
      rw [← this]
    rw [hmsg] at hx
    have hx2 := mem_of_mem_dedupeById _ x
      ((mem_sortById x (dedupeById (et.getD [] ++ sortById batch))).1 hx)
    rcases List.mem_append.1 hx2 with hx3 | hx3
    · exact het x hx3
    · exact hbatch x ((mem_sortById x batch).1 hx3)

/-- C10, witness: `fetched_records_text_or_media` on a concrete completed
attempt yielding the text-only record `rawA`: the fetched record has a
text or media. -/
theorem fetched_records_text_or_media_witness :
    ∀ x ∈ collectStream [some rawA], textOrMedia x = true :=
  fun x hx =>
    (fetched_records_text_or_media
        (fun _ _ _ _ => AttemptOutcome.success [some rawA]) failAlwaysOracle).1
      none none none 0 (collectStream [some rawA]) (by rw [fetchMessagesBatch]) x hx

/-- C6: `detect_gaps` returns the empty list unless both bounds are known
(non-null and non-zero — ids are assigned from 1 upstream, so zero means
unknown) with `min_known_id < last_known_id`; otherwise exactly the ids of
the inclusive span that are neither present in any readable shard nor
already recorded as deleted, sorted ascending and without duplicates — so
an id once recorded deleted is never returned again, and an id that later
appears in a shard is no longer returned. -/
theorem detectGaps_spec (loadFile : String → Option (List Msg)) (index : IndexDoc) :
    ((index.minKnownId.getD 0 = 0 ∨ index.lastKnownId = 0 ∨
        index.lastKnownId ≤ index.minKnownId.getD 0) →
      detectGaps loadFile index = []) ∧
    (∀ lo : Nat, index.minKnownId = some lo → lo ≠ 0 → index.lastKnownId ≠ 0 →
      lo < index.lastKnownId →
      (List.Sorted (· ≤ ·) (detectGaps loadFile index) ∧
        (detectGaps loadFile index).Nodup ∧
        (∀ i : Nat, i ∈ detectGaps loadFile index ↔
          (lo ≤ i ∧ i ≤ index.lastKnownId ∧
            i ∉ existingIds loadFile index.dataFiles ∧
            i ∉ index.deletedIds.toFinset)))) := by
  constructor
  · intro h
    rw [detectGaps]
    dsimp only
    rw [if_pos h]
  · intro lo hlo hlo0 hhi0 hlt
    have hcond : ¬ (index.minKnownId.getD 0 = 0 ∨ index.lastKnownId = 0 ∨
        index.lastKnownId ≤ index.minKnownId.getD 0) := by
      rw [hlo]
      simp only [Option.getD_some]
      push_neg
      exact ⟨hlo0, hhi0, by omega⟩
    rw [detectGaps]
    dsimp only
    rw [if_neg hcond]
    refine ⟨Finset.sort_sorted _ _, Finset.sort_nodup _ _, ?_⟩
    intro i
    rw [Finset.mem_sort, Finset.mem_sdiff, Finset.mem_sdiff, Finset.mem_Icc, hlo]
    simp only [Option.getD_some]
    tauto

/-- The stored messages of the specification's gap-detection example:
ids 10, 11, 13, 14, 16, 18 and 20. -/
def gapMsgs : List Msg :=
  [10, 11, 13, 14, 16, 18, 20].map
    (fun i => { id := i, date := 0, text := some exText, hasMedia := false
                mediaType := none })

/-- A shard loader holding `gapMsgs` in the single data file. -/
def gapLoad : String → Option (List Msg) :=
  fun f => if f == dayStr then some gapMsgs else none

/-- An index spanning ids 10 to 20 over the single data file. -/
def gapIndex : IndexDoc :=
  { freshIndex chanStr with
    minKnownId := some 10
    lastKnownId := 20
    dataFiles := [{ filename := dayStr, date := dayStr, postsCount := 7 }] }

/-- C6, witness: `detectGaps_spec` on the specification's example span
10 to 20 with stored ids 10, 11, 13, 14, 16, 18, 20, instantiated at
id 12. -/
theorem detectGaps_spec_witness :
    12 ∈ detectGaps gapLoad gapIndex ↔
      (10 ≤ 12 ∧ 12 ≤ gapIndex.lastKnownId ∧
        12 ∉ existingIds gapLoad gapIndex.dataFiles ∧
        12 ∉ gapIndex.deletedIds.toFinset) :=
  ((detectGaps_spec gapLoad gapIndex).2 10 rfl (by decide) (by decide)
    (by decide)).2.2 12

/-- The index file path used in the persistence model. -/
def idxFileName : String := "index.json"

/-- C7 (amended): `save_index` is a plain in-place overwrite — it
truncates the index file and writes the document into it, with no
temporary file and no rename — so a crash between the truncation and the
write leaves an empty, unparsable index file; the next `load_index` then
recovers by resetting that source to the fresh zero-valued index (the
pipeline continues, at the cost of the index-only bookkeeping), while a
completed save leaves exactly the saved document. -/
theorem save_index_overwrite (fs : String → FileState) (p c : String) (d : IndexDoc) :
    saveIndexOps p d = [FsOp.openTrunc p, FsOp.writeIndex p d] ∧
    writeTempThenRename p (saveIndexOps p d) = false ∧
    runOps fs (saveIndexOps p d) p = FileState.doc d ∧
    runOps fs (List.take 1 (saveIndexOps p d)) p = FileState.empty ∧
    loadIndex (runOps fs (List.take 1 (saveIndexOps p d))) p c = freshIndex c ∧
    loadIndex (runOps fs (saveIndexOps p d)) p c = d := by
  refine ⟨rfl, ?_, ?_, ?_, ?_, ?_⟩
  · simp [writeTempThenRename, saveIndexOps]
  · simp [saveIndexOps, runOps, applyOp]
  · simp [saveIndexOps, runOps, applyOp]
  · simp [saveIndexOps, runOps, applyOp, loadIndex]
  · simp [saveIndexOps, runOps, applyOp, loadIndex]

/-- C7, counterexample: the operation sequence of `save_index` truncates
and writes the final index path directly, so it does not follow the
write-temp-then-rename discipline the claim asserts, and the file state
after a crash between truncation and write is an empty file, not a valid
index document. -/
theorem save_index_atomicity_cex :
    writeTempThenRename idxFileName
        (saveIndexOps idxFileName (freshIndex chanStr)) = false ∧
    runOps (fun _ => FileState.absent)
        (List.take 1 (saveIndexOps idxFileName (freshIndex chanStr)))
        idxFileName = FileState.empty := by
  constructor
  · decide
  · rfl

/-- The monitor's forward record in the interleaving scenario: id 11. -/
def msgM : Msg :=
  { id := 11, date := 300, text := some exText, hasMedia := false, mediaType := none }

/-- The backfill's older record in the interleaving scenario: id 4. -/
def msgN : Msg :=
  { id := 4, date := 40, text := some exText, hasMedia := false, mediaType := none }

/-- The starting state of the interleaving scenario: 2 records archived,
known span 5 to 10, an empty shard for today, no index yet loaded by
either loop. -/
def c8Start : SysState × Locals :=
  ({ fileIndex := { freshIndex chanStr with
        totalPostsArchived := 2, lastKnownId := 10, minKnownId := some 5 }
     today := some [] },
   { monitorIdx := none, backfillIdx := none })

/-- The interleaving in which both loops load the index before either
saves: possible because each loop's awaited fetch suspends it between its
load and its save. -/
def interleavedSched : List Seg :=
  [Seg.monitorLoad, Seg.backfillLoad, Seg.monitorSave, Seg.backfillSave]

/-- The serialized order monitor-then-backfill. -/
def serialMB : List Seg :=
  [Seg.monitorLoad, Seg.monitorSave, Seg.backfillLoad, Seg.backfillSave]

/-- The serialized order backfill-then-monitor. -/
def serialBM : List Seg :=
  [Seg.backfillLoad, Seg.backfillSave, Seg.monitorLoad, Seg.monitorSave]

/-- C8 (amended): the daemon has no per-source lock; each loop body is two
atomic segments (read `index.json`; merge and persist) separated by the
awaited fetch, so cooperative scheduling admits the interleaving
load-monitor, load-backfill, save-monitor, save-backfill. On the concrete
starting state, that interleaving loses the monitor's index update: the
final `total_posts_archived` is 3 and `last_known_id` is 10, while either
serialized order of the same two cycles yields 4 and 11. -/
theorem loop_interleaving_lost_update :
    validSched interleavedSched = true ∧
    validSched serialMB = true ∧
    validSched serialBM = true ∧
    (runSched [msgM] [msgN] dayStr 1 interleavedSched
        c8Start).1.fileIndex.totalPostsArchived = 3 ∧
    (runSched [msgM] [msgN] dayStr 1 interleavedSched
        c8Start).1.fileIndex.lastKnownId = 10 ∧
    (runSched [msgM] [msgN] dayStr 1 serialMB
        c8Start).1.fileIndex.totalPostsArchived = 4 ∧
    (runSched [msgM] [msgN] dayStr 1 serialMB
        c8Start).1.fileIndex.lastKnownId = 11 ∧
    (runSched [msgM] [msgN] dayStr 1 serialBM
        c8Start).1.fileIndex.totalPostsArchived = 4 ∧
    (runSched [msgM] [msgN] dayStr 1 serialBM
        c8Start).1.fileIndex.lastKnownId = 11 := by
  decide

/-- C8, counterexample: an admissible interleaving of one monitor cycle
and one backfill cycle reaches an index state different from the outcome
of both serialized orders — the two loops interleave a read-modify-write
on the same index document, which the claimed per-source critical section
would make impossible. -/
theorem loop_serialization_cex :
    validSched interleavedSched = true ∧
    (runSched [msgM] [msgN] dayStr 1 interleavedSched c8Start).1.fileIndex ≠
      (runSched [msgM] [msgN] dayStr 1 serialMB c8Start).1.fileIndex ∧
    (runSched [msgM] [msgN] dayStr 1 interleavedSched c8Start).1.fileIndex ≠
      (runSched [msgM] [msgN] dayStr 1 serialBM c8Start).1.fileIndex := by
  refine ⟨rfl, ?_, ?_⟩ <;> decide

/-- A five-message upstream stream with ids 1 to 5. -/
def fiveStream : List (Option RawMsg) :=
  [1, 2, 3, 4, 5].map
    (fun i => some { id := i, date := i, text := some exText, media := none })

/-- An upstream yielding the whole five-message history on every attempt. -/
def fiveMsgsOracle : SimpleUpstream := fun _ _ => AttemptOutcome.success fiveStream

/-- A fresh per-channel state: no index on disk yet, `last_known_id` 0. -/
def c9State : SysState := { fileIndex := freshIndex chanStr, today := none }

/-- C9 (amended): only the one-shot `parser.py` bounds the first fetch:
with `last_known_id = 0`, `fetch_channel` passes no lower bound and a
limit of `INITIAL_FETCH_LIMIT` when that is positive (no limit when it is
zero), and passes `min_id = last_known_id` with no limit on later runs.
The daemon's monitor cycle instead calls `fetch_new_messages` with the
loaded `last_known_id` and no limit of any kind, so its first cycle
returns the upstream's entire stream. -/
theorem first_cycle_fetch_bounds (cfg lastK : Nat) (su : SimpleUpstream)
    (stream : List (Option RawMsg)) (s : SysState) :
    (fetchChannelForwardArgs cfg 0 =
      (none, if 0 < cfg then some cfg else none)) ∧
    (fetchChannelForwardArgs cfg (lastK + 1) = (some (lastK + 1), none)) ∧
    ((∀ att, su s.fileIndex.lastKnownId att = .success stream) →
      monitorCycleFetch su s 1 = some (collectStream stream, [])) := by
  refine ⟨?_, ?_, ?_⟩
  · rw [fetchChannelForwardArgs]
    rw [if_pos (rfl : (0 : Nat) = 0)]
    by_cases hc : 0 < cfg
    · rw [if_pos hc, if_pos hc]
    · rw [if_neg hc, if_neg hc]
  · rw [fetchChannelForwardArgs]
    simp
  · intro h
    rw [monitorCycleFetch]
    exact fetchNewMessages_success_eq su _ 0 0 stream (h 0)

/-- C9, counterexample: the daemon's monitor on a source with
`highest_id = 0` fetches the entire available history — all 5 upstream
records here, exceeding an initial-fetch cap of 2 — because
`fetch_new_messages` takes no count limit at all, so the first cycle's
fetch is unbounded whatever the configuration says. -/
theorem monitor_first_cycle_cex :
    (monitorCycleFetch fiveMsgsOracle c9State 1).map (fun r => r.1.length) =
      some 5 ∧ (2 : Nat) < 5 := by
  constructor
  · rfl
  · decide

/-- C9, witness: `first_cycle_fetch_bounds` on the concrete fresh state
and five-message upstream: the monitor's first cycle returns all five
records. -/
theorem first_cycle_fetch_bounds_witness :
    monitorCycleFetch fiveMsgsOracle c9State 1 =
      some (collectStream fiveStream, []) :=
  (first_cycle_fetch_bounds 2 0 fiveMsgsOracle fiveStream c9State).2.2
    (fun _ => rfl)

end ZWords
